import Mathlib

/-!
Verification of the FastRead reading-position engine.

This file gives a shallow embedding of the reading engine of the FastRead
application and proves the testable properties stated for it.  The embedded
code comes from:

* src/src/screens/ReaderScreen.tsx — the reader screen: cursor (a reanimated
  shared value named progress), the frame-callback autoplay loop (ticker and
  RSVP branches), the pan responder (gesture scrubbing with snap/decay),
  the position slider, the arrow controls, and chapter jumps;
* src/unnamed/part_002 (textProcessor) — processBookText: tokenization of the
  book text and the chapter scan;
* src/unnamed/part_003 — the narration (text-to-speech) variant of the reader
  screen: startSpeaking and its onBoundary callback;
* src/src/components/HeadlinesRenderer.tsx — the continuous (ticker) renderer:
  per-window cumulative character offsets and the animated container style.

Numbers are modelled by ℚ (JavaScript numbers, used here only in ranges where
binary floating point is exact or the spec's arithmetic is intended exactly);
JavaScript Math.floor is Int.floor and Math.round q is ⌊q + 1/2⌋.

Animations (withTiming, withDecay) are modelled by their terminal values: the
intermediate interpolated values lie between the start value and the target,
and every theorem below is about the settled value, as the spec's sentences
are.  Asynchronous setWpm(0) via runOnJS is modelled as taking effect in the
same transition.
-/

/-! ### JavaScript string primitives -/

/-- Whitespace test of the JavaScript regular-expression class backslash-s,
restricted to the characters that occur in book texts (space, tab, newline,
carriage return, vertical tab, form feed, no-break space). -/
def wsChar (c : Char) : Bool :=
  c = ' ' || c = '\t' || c = '\n' || c = '\r' ||
  c = '\x0b' || c = '\x0c' || c = ' '

/-- Core of JavaScript String.split on the whitespace run pattern: walks the
character list keeping the current (reversed) token in cur; flag records
whether the previous character was whitespace, so that a whitespace run emits
a single boundary.  Splitting the empty string yields one empty token, and
leading or trailing whitespace yields a leading or trailing empty token,
exactly as in JavaScript. -/
def splitWsAux (flag : Bool) (cur : List Char) : List Char → List (List Char)
  | [] => [cur.reverse]
  | c :: cs =>
    if wsChar c then
      if flag then splitWsAux true cur cs
      else cur.reverse :: splitWsAux true [] cs
    else splitWsAux false (c :: cur) cs

/-- JavaScript text.split on a whitespace-run pattern, on character lists. -/
def jsSplitWs (l : List Char) : List (List Char) :=
  splitWsAux false [] l

/-- JavaScript Array.join with a single space separator, on character lists. -/
def joinWords : List (List Char) → List Char
  | [] => []
  | [w] => w
  | w :: u :: rest => w ++ ' ' :: joinWords (u :: rest)

/-! ### processBookText (src/unnamed/part_002) -/

/-- Chapter marker, named title/index as in the source. -/
structure Marker where
  title : String
  index : ℕ
  deriving DecidableEq

/-- JavaScript String.toUpperCase, on the ASCII letters that the chapter scan
compares (Char.toUpper maps a-z to A-Z and fixes everything else). -/
def jsToUpper (s : String) : String :=
  ⟨s.data.map Char.toUpper⟩

/-- Test of the source comparison w === 'CHAPTER' || w === 'CHAPITRE' applied
to the uppercased token. -/
def isChapterKeyword (w : String) : Bool :=
  jsToUpper w = "CHAPTER" || jsToUpper w = "CHAPITRE"

/-- Roman-numeral letter class [IVXLCDM] of the source pattern. -/
def isRomanChar (c : Char) : Bool :=
  c = 'I' || c = 'V' || c = 'X' || c = 'L' || c = 'C' || c = 'D' || c = 'M'

/-- Test of the source pattern (backslash-d+ or [IVXLCDM]+) followed by an
optional single period or colon, anchored at both ends, applied to the
uppercased next token: strip one trailing period or colon if present, then
require a nonempty all-digit or all-Roman remainder. -/
def isNumeralToken (w : String) : Bool :=
  let u := (jsToUpper w).data
  let core := if u.getLast? = some '.' || u.getLast? = some ':' then u.dropLast else u
  !core.isEmpty && (core.all Char.isDigit || core.all isRomanChar)

/-- Word scan of processBookText: for i while i < words.length - 1, when the
uppercased token at i is a chapter keyword and the uppercased token at i+1
matches the numeral pattern, push a marker (title words[i] ++ " " ++
words[i+1], index i) and additionally advance i (skipping the numeral);
otherwise advance i by one.  The first argument is the running word index. -/
def chapterScan : ℕ → List String → List Marker
  | _, [] => []
  | _, [_] => []
  | i, w :: next :: rest =>
    if isChapterKeyword w && isNumeralToken next then
      ⟨w ++ " " ++ next, i⟩ :: chapterScan (i + 2) rest
    else
      chapterScan (i + 1) (next :: rest)

/-- Tokenization of processBookText: cleanText.split(whitespace runs) filtered
to the tokens of positive length. -/
def tokenizeWords (s : String) : List String :=
  ((jsSplitWs s.data).map fun l => (⟨l⟩ : String)).filter fun w => w.length != 0

/-- Result record of processBookText, as in the source. -/
structure BookStructure where
  words : List String
  chapters : List Marker
  deriving DecidableEq

/-- Model of processBookText of src/unnamed/part_002 from its tokenization
step on: the argument is cleanText, the book text after the source's steps
1 to 3 (newline normalization and the removal of the Project Gutenberg
header and footer), which are String-to-String preprocessing; every theorem
below quantifies over cleanText, so it holds for the output of processBookText
on every raw input.  Words are the whitespace-split nonempty tokens; chapters
come from the word scan, with the single default marker at index 0 (title
'Début') when the scan finds nothing. -/
def processBookText (cleanText : String) : BookStructure :=
  let words := tokenizeWords cleanText
  let chapters := chapterScan 0 words
  { words := words
    chapters := if chapters.isEmpty then [⟨"Début", 0⟩] else chapters }

/-- Chapter list computed from an already-tokenized word stream (the scan and
default-marker steps of processBookText). -/
def chaptersOf (words : List String) : List Marker :=
  let cs := chapterScan 0 words
  if cs.isEmpty then [⟨"Début", 0⟩] else cs

/-! ### Per-word cumulative character offsets (HeadlinesRenderer.tsx,
updateWindow): localOffsets[i] = acc before word i, acc advancing by
word length + 1 for the single joining space. -/

/-- Cumulative character offset table started at accumulator acc. -/
def charOffsetsFrom (acc : ℕ) : List String → List ℕ
  | [] => []
  | w :: rest => acc :: charOffsetsFrom (acc + w.length + 1) rest

/-- Offset table of a word slice, as built in updateWindow (acc starts at 0). -/
def charOffsets (ws : List String) : List ℕ :=
  charOffsetsFrom 0 ws

-- Sanity checks of the string primitives against JavaScript behaviour.
example : jsSplitWs "the quick ".data = ["the".data, "quick".data, []] := by decide
example : jsSplitWs "".data = [[]] := by decide
example : jsSplitWs "  a".data = [[], "a".data] := by decide
example : tokenizeWords " the  quick brown " = ["the", "quick", "brown"] := by decide
example : charOffsets ["the", "quick", "brown", "fox"] = [0, 4, 10, 16] := by decide
example : chapterScan 0 ["CHAPTER", "1", "x"] = [⟨"CHAPTER 1", 0⟩] := by decide
example : chapterScan 0 ["Chapitre", "iv.", "x"] = [⟨"Chapitre iv.", 0⟩] := by decide
example : chapterScan 0 ["Chapter", "one"] = [] := by decide
example : chaptersOf ["a", "b"] = [⟨"Début", 0⟩] := by decide

/-! ### Continuous-mode renderer (HeadlinesRenderer.tsx, containerStyle) -/

/-- JavaScript Math.round: floor of the value plus one half (ties go up). -/
def jsRound (q : ℚ) : ℤ :=
  ⌊q + 1/2⌋

/-- Model of the animated containerStyle worklet of HeadlinesRenderer: given
the current window's offset table, the window's starting word, the rendered
text length, the screen width, the monospace character width and the cursor,
return the horizontal translation of the text belt.  An empty offset table or
empty window text yields translation 0; a local index outside the offset
table yields the safe default screenW / 2; otherwise the belt is translated
so that the viewport centre falls at the interpolated character position of
the cursor. -/
def containerTranslate (offsets : List ℕ) (offsetStartWord windowTextLen : ℕ)
    (screenW charWidth progress : ℚ) : ℚ :=
  if offsets.isEmpty ∨ windowTextLen = 0 then 0
  else
    let floorIdx : ℤ := ⌊progress⌋
    let localIdx : ℤ := floorIdx - offsetStartWord
    if localIdx < 0 ∨ (offsets.length : ℤ) ≤ localIdx then screenW / 2
    else
      let li := localIdx.toNat
      let fraction : ℚ := progress - floorIdx
      let baseChar : ℤ := offsets.getD li 0
      let wordLen : ℤ :=
        if li < offsets.length - 1 then max 1 ((offsets.getD (li + 1) 0 : ℤ) - baseChar - 1)
        else 5
      screenW / 2 - ((baseChar : ℚ) + (wordLen : ℚ) * fraction) * charWidth

/-! ### The reading-position engine (ReaderScreen.tsx, with the narration
callbacks of the src/unnamed/part_003 reader variant) -/

/-- State of the reading engine: the shared values of ReaderScreen.tsx
(progress is the cursor, targetIndex the integer RSVP target, waitTimer the
dwell accumulator), the React wpm/savedWpm state, the interaction flag, the
visual mode, the recorded gesture start position (startProgressRef) and the
active narration chunk start (the startIndex captured by startSpeaking, none
when no speech is active). -/
structure EngineState where
  progress : ℚ
  targetIndex : ℤ
  waitTimer : ℚ
  wpm : ℚ
  savedWpm : ℚ
  isInteracting : Bool
  isTickerMode : Bool
  startProgress : ℚ
  session : Option ℕ
  deriving DecidableEq

/-- Events of the engine: autoplay frame ticks (dt is
frameInfo.timeSincePreviousFrame), the play/pause button, the WPM slider,
the mode toggle, the reader pan responder (grant, move, release), the
HeadlinesRenderer pan responder (grant, move with the monospace character
width, release), the position slider, the arrow controls, chapter jumps and
the narration lifecycle (start, stop, synthesis boundary callback). -/
inductive Ev
  | frameTick (dt : ℚ)
  | togglePlay
  | wpmSlider (v : ℚ)
  | toggleTicker
  | panGrant
  | panMove (dx dy : ℚ)
  | panRelease (vx vy decayTarget : ℚ)
  | hlGrant
  | hlMove (dx charWidth : ℚ)
  | hlRelease
  | sliderSeek (v : ℚ)
  | arrowClick (down : Bool)
  | jumpToChapter (idx : ℕ)
  | startSpeaking
  | stopSpeaking
  | speechBoundary (charIndex : ℕ)
  deriving DecidableEq

/-- Ticker (continuous) branch of the frame callback. -/
def tickerTick (content : List String) (s : EngineState) (dt : ℚ) : EngineState :=
  let dtv : ℚ := if dt = 0 then 16 else dt
  let increment := s.wpm / 60000 * min dtv 50
  let p1 := s.progress + increment
  let p2 := if p1 < 0 then 0 else p1
  if (content.length : ℚ) - 1 ≤ p2 then
    { s with progress := (content.length : ℚ) - 1, wpm := 0,
             targetIndex := ⌊(content.length : ℚ) - 1⌋ }
  else { s with progress := p2, targetIndex := ⌊p2⌋ }

/-- RSVP (discrete) branch of the frame callback. -/
def rsvpTick (content : List String) (s : EngineState) (dt : ℚ) : EngineState :=
  let avgCycle := 60000 / (if s.wpm = 0 then 300 else s.wpm)
  if s.waitTimer < avgCycle then
    { s with progress := (s.targetIndex : ℚ),
             waitTimer := s.waitTimer + (if dt = 0 then 16 else dt) }
  else
    { s with waitTimer := 0, targetIndex := s.targetIndex + 1,
             progress := ((s.targetIndex + 1 : ℤ) : ℚ),
             wpm := if (content.length : ℤ) ≤ s.targetIndex + 1 then 0 else s.wpm }

/-- One transition of the engine on a word stream content.  Each branch is a
direct transcription of the corresponding handler:

* frameTick — the useFrameCallback body: no-op when paused or interacting;
  ticker branch clamps elapsed time to 50 ms, adds wpm / 60000 × dt, clamps
  the cursor below at 0, and at the top to length − 1 while resetting the
  rate to 0; RSVP branch holds the cursor at targetIndex while the wait
  accumulator is under 60000 / wpm, else resets the accumulator, increments
  the target, writes it to the cursor, and stops at the end (a zero or absent
  elapsed time falls back to 16 ms in both branches);
* togglePlay / wpmSlider — the play button and the WPM slider (whose values
  the component restricts to [100, 1000]);
* toggleTicker — flips the visual mode (the saved-playing restore effect of
  the source never changes wpm, since toggling leaves wpm untouched);
* panGrant/panMove/panRelease — the reader pan responder: grant pauses,
  records the start cursor and claims interaction; move applies
  -translation × 0.02 (× 0.2 more on the horizontal axis in ticker mode) to
  the recorded start and clamps (two sequential if clamps, as in the source);
  release computes the exit velocity ±v × 20, then either snaps immediately
  (|velocity| < 0.5) or decays with clamp [0, length − 1] and snaps from the
  decay endpoint (decayTarget); the snap's settled value is Math.round, the
  completion clears the interaction flag and syncs targetIndex;
* hlGrant/hlMove/hlRelease — the HeadlinesRenderer pan responder (active in
  ticker mode): move applies -dx / charWidth with a symmetric clamp, release
  only clears the interaction flag (no snap);
* sliderSeek — the position slider: pause, floor, clamp, write;
* arrowClick — the arrow controls: pause and move the integer target by one,
  clamped (this screen's frame callback reads the target only while playing,
  so the cursor itself is unchanged here);
* jumpToChapter — sets cursor and target to a marker index of the chapter
  list (the modal only offers indices of chaptersOf content);
* startSpeaking/stopSpeaking/speechBoundary — the part_003 narration: start
  captures Math.round of the cursor as the chunk start unless past the end;
  the boundary callback is dropped while interacting, otherwise it counts the
  words of the spoken chunk's prefix of charIndex characters (the chunk is
  the next 100 words joined by single spaces) and writes chunk start + word
  offset to the cursor. -/
def step (content : List String) (s : EngineState) : Ev → EngineState
  | .frameTick dt =>
    if s.wpm = 0 ∨ s.isInteracting then s
    else if s.isTickerMode then tickerTick content s dt
    else rsvpTick content s dt
  | .togglePlay =>
    if 0 < s.wpm then { s with wpm := 0 }
    else { s with wpm := if 0 < s.savedWpm then s.savedWpm else 300 }
  | .wpmSlider v =>
    if 100 ≤ v ∧ v ≤ 1000 then
      { s with wpm := if 0 < s.wpm then v else s.wpm, savedWpm := v }
    else s
  | .toggleTicker => { s with isTickerMode := !s.isTickerMode }
  | .panGrant =>
    { s with isInteracting := true, wpm := 0, startProgress := s.progress }
  | .panMove dx dy =>
    let delta : ℚ := if s.isTickerMode then -dx * 0.02 * 0.2 else -dy * 0.02
    let v1 := s.startProgress + delta
    let v2 := if v1 < 0 then 0 else v1
    let v3 := if (content.length : ℚ) - 1 < v2 then (content.length : ℚ) - 1 else v2
    { s with progress := v3 }
  | .panRelease vx vy decayTarget =>
    let velocity : ℚ := if s.isTickerMode then -vx * 20 else -vy * 20
    let settled : ℚ :=
      if |velocity| < 0.5 then s.progress
      else max 0 (min decayTarget ((content.length : ℚ) - 1))
    { s with progress := (jsRound settled : ℚ), targetIndex := jsRound settled,
             isInteracting := false }
  | .hlGrant => { s with isInteracting := true }
  | .hlMove dx charWidth =>
    { s with progress := max 0 (min (s.progress + -dx / charWidth) ((content.length : ℚ) - 1)) }
  | .hlRelease => { s with isInteracting := false }
  | .sliderSeek v =>
    let clamped : ℤ := max 0 (min ⌊v⌋ ((content.length : ℤ) - 1))
    { s with wpm := 0, progress := (clamped : ℚ), targetIndex := clamped }
  | .arrowClick down =>
    let current := jsRound s.progress
    let next0 := if down then current + 1 else current - 1
    let next1 := if next0 < 0 then 0 else next0
    let next2 := if (content.length : ℤ) ≤ next1 then (content.length : ℤ) - 1 else next1
    if next2 ≠ current then { s with wpm := 0, targetIndex := next2 }
    else { s with wpm := 0 }
  | .jumpToChapter idx =>
    if idx ∈ (chaptersOf content).map Marker.index then
      { s with wpm := 0, progress := (idx : ℚ), targetIndex := (idx : ℤ) }
    else s
  | .startSpeaking =>
    if content.isEmpty then { s with session := none }
    else
      let startIndex := jsRound s.progress
      if (content.length : ℤ) ≤ startIndex then s
      else { s with session := some startIndex.toNat }
  | .stopSpeaking => { s with session := none }
  | .speechBoundary charIndex =>
    if s.isInteracting then s
    else
      match s.session with
      | none => s
      | some startIndex =>
        let chunkWords := (content.drop startIndex).take 100
        let textToRead := joinWords (chunkWords.map String.data)
        let wordOffset := (jsSplitWs (textToRead.take charIndex)).length - 1
        { s with progress := ((startIndex + wordOffset : ℕ) : ℚ) }

/-- Initial engine state at a saved reading position (route initialIndex, 0
for a fresh book): cursor and target at the index, paused, RSVP mode,
savedWpm 300, no interaction, no narration. -/
def initState (initialIndex : ℕ) : EngineState :=
  { progress := initialIndex, targetIndex := initialIndex, waitTimer := 0,
    wpm := 0, savedWpm := 300, isInteracting := false, isTickerMode := false,
    startProgress := 0, session := none }

/-- Run of the engine from the initial state over a list of events. -/
def runEngine (content : List String) (initialIndex : ℕ) (evs : List Ev) : EngineState :=
  evs.foldl (step content) (initState initialIndex)

/-! ### Arithmetic facts about the JavaScript rounding model -/

theorem jsRound_nonneg {q : ℚ} (h : 0 ≤ q) : 0 ≤ jsRound q := by
  have : (0 : ℚ) ≤ q + 1/2 := by linarith
  exact Int.le_floor.mpr (by exact_mod_cast this)

theorem jsRound_le_of_le_intCast {q : ℚ} {M : ℤ} (h : q ≤ (M : ℚ)) : jsRound q ≤ M := by
  have : q + 1/2 < (M : ℚ) + 1 := by linarith
  exact Int.lt_add_one_iff.mp (Int.floor_lt.mpr (by push_cast; linarith))

theorem jsRound_intCast (k : ℤ) : jsRound ((k : ℚ)) = k := by
  unfold jsRound
  rw [Int.floor_int_add]
  norm_num

theorem jsRound_dist (q : ℚ) : |((jsRound q : ℚ)) - q| ≤ 1/2 := by
  have h1 : ((jsRound q : ℚ)) ≤ q + 1/2 := Int.floor_le _
  have h2 : q + 1/2 < ((jsRound q : ℚ)) + 1 := Int.lt_floor_add_one _
  rw [abs_le]
  constructor <;> linarith

/-! ### Lemmas about the whitespace splitter -/

/-- Consuming a whitespace-free word prepends its characters to the current
token. -/
theorem splitWsAux_append (w : List Char) (hw : ∀ c ∈ w, wsChar c = false) :
    ∀ (cur l : List Char),
      splitWsAux false cur (w ++ l) = splitWsAux false (w.reverse ++ cur) l := by
  induction w with
  | nil => intro cur l; simp
  | cons c w ih =>
    intro cur l
    have hc : wsChar c = false := hw c (by simp)
    have hw' : ∀ d ∈ w, wsChar d = false := fun d hd => hw d (by simp [hd])
    show splitWsAux false cur (c :: (w ++ l)) = splitWsAux false ((c :: w).reverse ++ cur) l
    simp only [splitWsAux, hc, Bool.false_eq_true, if_false]
    rw [ih hw' (c :: cur) l]
    simp

/-- A space after the current token emits it. -/
theorem splitWsAux_space (cur l : List Char) :
    splitWsAux false cur (' ' :: l) = cur.reverse :: splitWsAux true [] l := by
  simp [splitWsAux, wsChar]

/-- Right after an emitted boundary, the flag is irrelevant when the rest
does not begin with whitespace. -/
theorem splitWsAux_flag_irrel (l : List Char)
    (h : ∀ c, l.head? = some c → wsChar c = false) :
    splitWsAux true [] l = splitWsAux false [] l := by
  cases l with
  | nil => rfl
  | cons c cs => simp [splitWsAux, h c rfl]

/-- The number of produced tokens is at most one more than the number of
whitespace characters. -/
theorem splitWsAux_length_le (l : List Char) :
    ∀ (flag : Bool) (cur : List Char),
      (splitWsAux flag cur l).length ≤ 1 + l.countP wsChar := by
  induction l with
  | nil => intro flag cur; simp [splitWsAux]
  | cons c cs ih =>
    intro flag cur
    by_cases hc : wsChar c = true
    · cases flag with
      | true =>
        simp only [splitWsAux, hc, if_true]
        calc (splitWsAux true cur cs).length ≤ 1 + cs.countP wsChar := ih true cur
          _ ≤ 1 + (c :: cs).countP wsChar := by
              simp [List.countP_cons, hc]
      | false =>
        simp only [splitWsAux, hc, if_true, Bool.false_eq_true, if_false,
          List.length_cons]
        have := ih true []
        have hcount : (c :: cs).countP wsChar = cs.countP wsChar + 1 := by
          simp [List.countP_cons, hc]
        omega
    · have hc' : wsChar c = false := by simpa using hc
      simp only [splitWsAux, hc', Bool.false_eq_true, if_false]
      calc (splitWsAux false (c :: cur) cs).length ≤ 1 + cs.countP wsChar :=
            ih false (c :: cur)
        _ ≤ 1 + (c :: cs).countP wsChar := by simp [List.countP_cons, hc']

/-- Well-formed word streams: every token is nonempty and whitespace-free —
exactly what tokenizeWords produces (proved below). -/
def goodWords (ws : List String) : Prop :=
  ∀ w ∈ ws, w.data ≠ [] ∧ ∀ c ∈ w.data, wsChar c = false

/-- Joining whitespace-free words with single spaces puts exactly one
whitespace character between consecutive words. -/
theorem countP_joinWords (chunks : List (List Char))
    (h : ∀ w ∈ chunks, ∀ c ∈ w, wsChar c = false) :
    (joinWords chunks).countP wsChar = chunks.length - 1 := by
  induction chunks with
  | nil => simp [joinWords]
  | cons w rest ih =>
    cases rest with
    | nil =>
      have : ∀ c ∈ w, wsChar c = false := h w (by simp)
      simp only [joinWords, List.length_singleton]
      rw [List.countP_eq_zero.mpr (fun c hc => by simp [this c hc])]
    | cons u tail =>
      have hw : ∀ c ∈ w, wsChar c = false := h w (by simp)
      have hrest : ∀ v ∈ u :: tail, ∀ c ∈ v, wsChar c = false :=
        fun v hv => h v (by simp [hv])
      simp only [joinWords, List.countP_append, List.countP_cons]
      rw [List.countP_eq_zero.mpr (fun c hc => by simp [hw c hc]), ih hrest]
      simp [wsChar, List.length_cons]

/-- Word-start offsets of a word list: offAt ws k is the cumulative character
offset of word k in the single-space join (the value charOffsets stores at
position k). -/
def offAt : List String → ℕ → ℕ
  | [], _ => 0
  | _ :: _, 0 => 0
  | w :: rest, k + 1 => w.length + 1 + offAt rest k

theorem charOffsetsFrom_get? (ws : List String) :
    ∀ (acc k : ℕ), k < ws.length →
      (charOffsetsFrom acc ws).get? k = some (acc + offAt ws k) := by
  induction ws with
  | nil => intro acc k h; simp at h
  | cons w rest ih =>
    intro acc k h
    cases k with
    | zero => simp [charOffsetsFrom, offAt]
    | succ k =>
      have hk : k < rest.length := by simpa using h
      simp only [charOffsetsFrom, List.get?_cons_succ, offAt]
      rw [ih (acc + w.length + 1) k hk]
      congr 1
      omega

theorem charOffsets_get? (ws : List String) (k : ℕ) (h : k < ws.length) :
    (charOffsets ws).get? k = some (offAt ws k) := by
  simpa using charOffsetsFrom_get? ws 0 k h

/-- Splitting the join of well-formed words truncated at the start offset of
word k yields exactly the k words before it plus the empty token opened by
the separator: k + 1 tokens in total.  This is the heart of the narration
boundary mapping: the source computes the word offset as the token count of
the prefix minus one. -/
theorem jsSplitWs_take_offAt (ws : List String) (hws : goodWords ws) :
    ∀ k, k < ws.length →
      (jsSplitWs ((joinWords (ws.map String.data)).take (offAt ws k))).length = k + 1 := by
  induction ws with
  | nil => intro k hk; simp at hk
  | cons w rest ih =>
    intro k hk
    cases k with
    | zero => simp [offAt, jsSplitWs, splitWsAux]
    | succ k =>
      have hk' : k < rest.length := by simpa using hk
      have hrest : rest ≠ [] := by
        intro h; rw [h] at hk'; simp at hk'
      have hw : w.data ≠ [] ∧ ∀ c ∈ w.data, wsChar c = false := hws w (by simp)
      have hws' : goodWords rest := fun v hv => hws v (by simp [hv])
      obtain ⟨u, tail, rfl⟩ := List.exists_cons_of_ne_nil hrest
      have hjoin : joinWords ((w :: u :: tail).map String.data) =
          w.data ++ ' ' :: joinWords ((u :: tail).map String.data) := by
        simp [joinWords]
      have hoff : offAt (w :: u :: tail) (k + 1) =
          w.data.length + (offAt (u :: tail) k + 1) := by
        simp only [offAt]
        have : w.length = w.data.length := rfl
        omega
      rw [hjoin, hoff, List.take_append, List.take_succ_cons]
      set T := (joinWords ((u :: tail).map String.data)).take (offAt (u :: tail) k) with hT
      have hsplit : jsSplitWs (w.data ++ ' ' :: T) = w.data :: splitWsAux true [] T := by
        unfold jsSplitWs
        rw [splitWsAux_append w.data hw.2 [] (' ' :: T), List.append_nil,
          splitWsAux_space, List.reverse_reverse]
      have hhead : ∀ c, T.head? = some c → wsChar c = false := by
        intro c hc
        have hu : u.data ≠ [] ∧ ∀ d ∈ u.data, wsChar d = false := hws' u (by simp)
        obtain ⟨d, ds, hud⟩ := List.exists_cons_of_ne_nil hu.1
        have hJhead : (joinWords ((u :: tail).map String.data)).head? = some d := by
          cases tail with
          | nil => simp [joinWords, hud]
          | cons v vt => simp [joinWords, hud]
        rw [hT] at hc
        cases hok : offAt (u :: tail) k with
        | zero => rw [hok] at hc; simp at hc
        | succ n =>
          rw [hok] at hc
          cases hJnil : joinWords ((u :: tail).map String.data) with
          | nil => rw [hJnil] at hc; simp at hc
          | cons e es =>
            rw [hJnil] at hc
            rw [hJnil] at hJhead
            simp only [List.take_succ_cons, List.head?_cons, Option.some.injEq] at hc hJhead
            subst hc
            rw [hJhead]
            exact hu.2 d (by rw [hud]; simp)
      rw [hsplit, splitWsAux_flag_irrel T hhead]
      have := ih hws' k hk'
      rw [jsSplitWs] at this
      rw [← hT] at this
      simp only [List.length_cons]
      omega

/-- Every token produced by the whitespace splitter is whitespace-free. -/
theorem splitWsAux_tokens_wsFree (l : List Char) :
    ∀ (flag : Bool) (cur : List Char), (∀ c ∈ cur, wsChar c = false) →
      ∀ t ∈ splitWsAux flag cur l, ∀ c ∈ t, wsChar c = false := by
  induction l with
  | nil =>
    intro flag cur hcur t ht c hc
    simp only [splitWsAux, List.mem_singleton] at ht
    subst ht
    exact hcur c (by simpa using hc)
  | cons a cs ih =>
    intro flag cur hcur t ht c hc
    by_cases ha : wsChar a = true
    · cases flag with
      | true =>
        rw [splitWsAux, if_pos ha, if_pos rfl] at ht
        exact ih true cur hcur t ht c hc
      | false =>
        rw [splitWsAux, if_pos ha] at ht
        simp only [Bool.false_eq_true, if_false, List.mem_cons] at ht
        rcases ht with rfl | ht
        · exact hcur c (by simpa using hc)
        · exact ih true [] (by simp) t ht c hc
    · have ha' : wsChar a = false := by simpa using ha
      rw [splitWsAux, if_neg (by simp [ha'])] at ht
      refine ih false (a :: cur) ?_ t ht c hc
      intro d hd
      rcases List.mem_cons.mp hd with rfl | hd
      · exact ha'
      · exact hcur d hd

/-- The word array of processBookText consists of nonempty, whitespace-free
tokens. -/
theorem tokenizeWords_good (s : String) : goodWords (tokenizeWords s) := by
  intro w hw
  unfold tokenizeWords at hw
  rw [List.mem_filter] at hw
  obtain ⟨hmem, hlen⟩ := hw
  rw [List.mem_map] at hmem
  obtain ⟨t, ht, rfl⟩ := hmem
  refine ⟨?_, ?_⟩
  · intro hnil
    have : (⟨t⟩ : String).length = 0 := by
      show t.length = 0
      simpa using congrArg List.length hnil
    simp [this] at hlen
  · intro c hc
    exact splitWsAux_tokens_wsFree s.data false [] (by simp) t ht c hc

/-- Cumulative character offsets over nonempty words grow by at least 2 per
word (word length at least 1, plus 1 for the separator). -/
theorem charOffsetsFrom_chain (ws : List String) (h : ∀ w ∈ ws, w.data ≠ []) :
    ∀ acc : ℕ, List.Chain' (fun a b => a + 2 ≤ b) (charOffsetsFrom acc ws) := by
  induction ws with
  | nil => intro acc; simp [charOffsetsFrom]
  | cons w rest ih =>
    intro acc
    have hrest : ∀ v ∈ rest, v.data ≠ [] := fun v hv => h v (by simp [hv])
    rw [charOffsetsFrom, List.chain'_cons']
    refine ⟨?_, ih hrest (acc + w.length + 1)⟩
    intro b hb
    have hwlen : 1 ≤ w.length := by
      have := h w (by simp)
      have : w.data.length ≠ 0 := fun hz => this (List.length_eq_zero.mp hz)
      show 1 ≤ w.data.length
      omega
    cases rest with
    | nil => simp [charOffsetsFrom] at hb
    | cons v vt =>
      simp only [charOffsetsFrom, List.head?_cons, Option.mem_def, Option.some.injEq] at hb
      omega

/-- Token-count bound for any character prefix of a single-space join of
well-formed words: at most one token per word. -/
theorem jsSplitWs_take_le (chunk : List String) (hg : goodWords chunk)
    (hne : chunk ≠ []) (ci : ℕ) :
    (jsSplitWs ((joinWords (chunk.map String.data)).take ci)).length ≤ chunk.length := by
  have h1 := splitWsAux_length_le ((joinWords (chunk.map String.data)).take ci) false []
  have h2 : ((joinWords (chunk.map String.data)).take ci).countP wsChar ≤
      (joinWords (chunk.map String.data)).countP wsChar :=
    List.Sublist.countP_le _ (List.take_sublist _ _)
  have h3 : (joinWords (chunk.map String.data)).countP wsChar =
      (chunk.map String.data).length - 1 := by
    refine countP_joinWords _ ?_
    intro w hw c hc
    rw [List.mem_map] at hw
    obtain ⟨v, hv, rfl⟩ := hw
    exact (hg v hv).2 c hc
  have h4 : chunk.length ≠ 0 := fun hz => hne (List.length_eq_zero.mp hz)
  rw [jsSplitWs]
  simp only [List.length_map] at h3
  omega

/-! ### Characterization of the chapter scan -/

/-- A chapter keyword is never a numeral token (the keyword strings contain
letters outside both the digit and the Roman classes). -/
theorem keyword_not_numeral (w : String) (h : isChapterKeyword w = true) :
    isNumeralToken w = false := by
  have h' : jsToUpper w = "CHAPTER" ∨ jsToUpper w = "CHAPITRE" := by
    simpa [isChapterKeyword, Bool.or_eq_true, decide_eq_true_eq] using h
  rcases h' with h' | h' <;> simp only [isNumeralToken, h'] <;> decide

/-- Contrapositive form used when arguing that the skip after a match cannot
hide a later match. -/
theorem numeral_not_keyword (w : String) (h : isNumeralToken w = true) :
    isChapterKeyword w = false := by
  by_contra hk
  have hk' : isChapterKeyword w = true := by
    cases hkk : isChapterKeyword w
    · exact absurd hkk hk
    · rfl
  rw [keyword_not_numeral w hk'] at h
  exact absurd h (by simp)

/-- Complete characterization of the chapter scan: a marker is produced with
running index b exactly for the positions j where the token is a chapter
keyword and its successor a numeral token, with the title being the two
tokens joined by a space.  The skip of the consumed numeral loses no match,
since a numeral token is never itself a keyword. -/
theorem chapterScan_mem_iff (l : List String) (b : ℕ) (m : Marker) :
    m ∈ chapterScan b l ↔
      ∃ j w next, l.get? j = some w ∧ l.get? (j + 1) = some next ∧
        isChapterKeyword w = true ∧ isNumeralToken next = true ∧
        m = ⟨w ++ " " ++ next, b + j⟩ := by
  have H : ∀ (n : ℕ) (l : List String), l.length ≤ n → ∀ (b : ℕ) (m : Marker),
      m ∈ chapterScan b l ↔
        ∃ j w next, l.get? j = some w ∧ l.get? (j + 1) = some next ∧
          isChapterKeyword w = true ∧ isNumeralToken next = true ∧
          m = ⟨w ++ " " ++ next, b + j⟩ := by
    intro n
    induction n with
    | zero =>
      intro l hl b m
      have hnil : l = [] := List.length_eq_zero.mp (Nat.le_zero.mp hl)
      subst hnil
      simp [chapterScan]
    | succ n ih =>
      intro l hl b m
      match l with
      | [] => simp [chapterScan]
      | [w] =>
        simp only [chapterScan, List.not_mem_nil, false_iff]
        rintro ⟨j, w', next, hw', hnext, -⟩
        cases j with
        | zero => simp at hnext
        | succ j => simp at hw'
      | w :: next :: rest =>
        have hlen2 : rest.length ≤ n := by
          simp only [List.length_cons] at hl; omega
        have hlen1 : (next :: rest).length ≤ n := by
          simp only [List.length_cons] at hl ⊢; omega
        by_cases hcond : (isChapterKeyword w && isNumeralToken next) = true
        · have hkw : isChapterKeyword w = true := (Bool.and_eq_true _ _ |>.mp hcond).1
          have hnum : isNumeralToken next = true := (Bool.and_eq_true _ _ |>.mp hcond).2
          rw [chapterScan, if_pos hcond, List.mem_cons, ih rest hlen2 (b + 2) m]
          constructor
          · rintro (rfl | ⟨j, w', next', h1, h2, h3, h4, h5⟩)
            · exact ⟨0, w, next, by simp, by simp, hkw, hnum, by simp⟩
            · refine ⟨j + 2, w', next', by simpa using h1, by simpa using h2, h3, h4, ?_⟩
              rw [h5]
              simp only [Marker.mk.injEq, true_and]
              omega
          · rintro ⟨j, w', next', h1, h2, h3, h4, h5⟩
            match j with
            | 0 =>
              left
              have h1' : w = w' := by simpa using h1
              have h2' : next = next' := by simpa using h2
              rw [h5, ← h1', ← h2']
              simp
            | 1 =>
              exfalso
              have h1' : next = w' := by simpa using h1
              rw [← h1'] at h3
              rw [numeral_not_keyword next hnum] at h3
              exact absurd h3 (by simp)
            | j + 2 =>
              right
              refine ⟨j, w', next', by simpa using h1, by simpa using h2, h3, h4, ?_⟩
              rw [h5]
              simp only [Marker.mk.injEq, true_and]
              omega
        · rw [chapterScan, if_neg hcond, ih (next :: rest) hlen1 (b + 1) m]
          constructor
          · rintro ⟨j, w', next', h1, h2, h3, h4, h5⟩
            refine ⟨j + 1, w', next', by simpa using h1, by simpa using h2, h3, h4, ?_⟩
            rw [h5]
            simp only [Marker.mk.injEq, true_and]
            omega
          · rintro ⟨j, w', next', h1, h2, h3, h4, h5⟩
            match j with
            | 0 =>
              exfalso
              have h1' : w = w' := by simpa using h1
              have h2' : next = next' := by simpa using h2
              rw [← h1'] at h3
              rw [← h2'] at h4
              exact hcond (by simp [h3, h4])
            | j + 1 =>
              refine ⟨j, w', next', by simpa using h1, by simpa using h2, h3, h4, ?_⟩
              rw [h5]
              simp only [Marker.mk.injEq, true_and]
              omega
  exact H l.length l le_rfl b m

/-- Every marker of the chapter list of a nonempty word stream points inside
the stream. -/
theorem chaptersOf_index_lt (ws : List String) (hws : ws ≠ [])
    (m : Marker) (hm : m ∈ chaptersOf ws) : m.index < ws.length := by
  unfold chaptersOf at hm
  by_cases hscan : (chapterScan 0 ws).isEmpty
  · rw [if_pos hscan] at hm
    simp only [List.mem_singleton] at hm
    subst hm
    have : ws.length ≠ 0 := fun hz => hws (List.length_eq_zero.mp hz)
    simpa using Nat.pos_of_ne_zero this
  · rw [if_neg hscan] at hm
    obtain ⟨j, w, next, h1, h2, -, -, h5⟩ := (chapterScan_mem_iff ws 0 m).mp hm
    have : j + 1 < ws.length := List.get?_eq_some.mp h2 |>.1
    rw [h5]
    simp only
    omega

/-! ### Invariants of the reading engine -/

/-- Inductive invariant of the engine over a word stream: the cursor and the
integer target are nonnegative, any cursor value beyond length − 1 is an
integer (only the integer-valued writes of the RSVP advance can escape the
bound), and an active narration chunk starts inside the stream. -/
def EngineInv (content : List String) (s : EngineState) : Prop :=
  0 ≤ s.progress ∧ 0 ≤ s.targetIndex ∧
  ((∃ k : ℤ, s.progress = (k : ℚ)) ∨ s.progress ≤ (content.length : ℚ) - 1) ∧
  (∀ st, s.session = some st → st < content.length)

theorem tickerTick_inv (content : List String) (hN : 1 ≤ content.length)
    (s : EngineState) (hs : EngineInv content s) (dt : ℚ) :
    EngineInv content (tickerTick content s dt) := by
  obtain ⟨hp, ht, hint, hsess⟩ := hs
  have hN' : (1 : ℚ) ≤ (content.length : ℚ) := by exact_mod_cast hN
  unfold tickerTick
  set p1 := s.progress + s.wpm / 60000 * min (if dt = 0 then 16 else dt) 50 with hp1
  have hp2 : 0 ≤ (if p1 < 0 then 0 else p1) := by
    split_ifs with h
    · exact le_rfl
    · linarith
  by_cases htop : (content.length : ℚ) - 1 ≤ (if p1 < 0 then 0 else p1)
  · rw [if_pos htop]
    refine ⟨?_, ?_, ?_, ?_⟩ <;> dsimp only
    · linarith
    · exact Int.le_floor.mpr (by push_cast; linarith)
    · exact Or.inr le_rfl
    · exact hsess
  · rw [if_neg htop]
    refine ⟨?_, ?_, ?_, ?_⟩ <;> dsimp only
    · exact hp2
    · exact Int.le_floor.mpr (by push_cast; linarith)
    · exact Or.inr (by linarith)
    · exact hsess

theorem rsvpTick_inv (content : List String)
    (s : EngineState) (hs : EngineInv content s) (dt : ℚ) :
    EngineInv content (rsvpTick content s dt) := by
  obtain ⟨hp, ht, hint, hsess⟩ := hs
  unfold rsvpTick
  by_cases hhold : s.waitTimer < 60000 / (if s.wpm = 0 then 300 else s.wpm)
  · rw [if_pos hhold]
    refine ⟨?_, ?_, ?_, ?_⟩ <;> dsimp only
    · exact_mod_cast ht
    · exact ht
    · exact Or.inl ⟨s.targetIndex, rfl⟩
    · exact hsess
  · rw [if_neg hhold]
    refine ⟨?_, ?_, ?_, ?_⟩ <;> dsimp only
    · exact_mod_cast (by omega : (0:ℤ) ≤ s.targetIndex + 1)
    · omega
    · exact Or.inl ⟨s.targetIndex + 1, rfl⟩
    · exact hsess

/-- Every event of the engine preserves the invariant (single-step case
analysis over all sixteen handlers). -/
theorem engineInv_step (content : List String) (hN : 1 ≤ content.length)
    (s : EngineState) (hs : EngineInv content s) (e : Ev) :
    EngineInv content (step content s e) := by
  have hN' : (1 : ℚ) ≤ (content.length : ℚ) := by exact_mod_cast hN
  obtain ⟨hp, ht, hint, hsess⟩ := hs
  cases e with
  | frameTick dt =>
    by_cases hguard : s.wpm = 0 ∨ s.isInteracting = true
    · simp only [step, if_pos hguard]
      exact ⟨hp, ht, hint, hsess⟩
    · by_cases hmode : s.isTickerMode = true
      · simp only [step, if_neg hguard, hmode, if_pos rfl]
        exact tickerTick_inv content hN s ⟨hp, ht, hint, hsess⟩ dt
      · have hmode' : s.isTickerMode = false := by
          cases h : s.isTickerMode
          · rfl
          · exact absurd h hmode
        simp only [step, if_neg hguard, hmode', Bool.false_eq_true, if_false]
        exact rsvpTick_inv content s ⟨hp, ht, hint, hsess⟩ dt
  | togglePlay =>
    simp only [step]
    split_ifs <;> exact ⟨hp, ht, hint, hsess⟩
  | wpmSlider v =>
    simp only [step]
    split_ifs <;> exact ⟨hp, ht, hint, hsess⟩
  | toggleTicker => exact ⟨hp, ht, hint, hsess⟩
  | panGrant => exact ⟨hp, ht, hint, hsess⟩
  | panMove dx dy =>
    simp only [step]
    set v1 := s.startProgress +
      (if s.isTickerMode = true then -dx * 0.02 * 0.2 else -dy * 0.02) with hv1
    refine ⟨?_, ht, Or.inr ?_, hsess⟩ <;> dsimp only
    · split_ifs with h1 h2 h2
      · linarith
      · exact le_rfl
      · linarith
      · linarith
    · split_ifs with h1 h2 h2
      · linarith
      · linarith
      · exact le_rfl
      · linarith
  | panRelease vx vy decayTarget =>
    simp only [step]
    have hset : 0 ≤ (if |if s.isTickerMode = true then -vx * 20 else -vy * 20| < 0.5
        then s.progress else max 0 (min decayTarget ((content.length : ℚ) - 1))) := by
      split_ifs <;> first
        | exact hp
        | exact le_max_left _ _
    refine ⟨?_, ?_, ?_, ?_⟩ <;> dsimp only
    · exact_mod_cast jsRound_nonneg hset
    · exact jsRound_nonneg hset
    · exact Or.inl ⟨_, rfl⟩
    · exact hsess
  | hlGrant => exact ⟨hp, ht, hint, hsess⟩
  | hlMove dx charWidth =>
    simp only [step]
    refine ⟨le_max_left _ _, ht, Or.inr ?_, hsess⟩
    dsimp only
    have h1 : min (s.progress + -dx / charWidth) ((content.length : ℚ) - 1) ≤
        (content.length : ℚ) - 1 := min_le_right _ _
    exact max_le (by linarith) h1
  | hlRelease => exact ⟨hp, ht, hint, hsess⟩
  | sliderSeek v =>
    simp only [step]
    refine ⟨?_, ?_, ?_, ?_⟩ <;> dsimp only
    · exact_mod_cast le_max_left 0 (min ⌊v⌋ ((content.length : ℤ) - 1))
    · exact le_max_left 0 _
    · exact Or.inl ⟨_, rfl⟩
    · exact hsess
  | arrowClick down =>
    simp only [step]
    split_ifs <;> refine ⟨hp, ?_, hint, hsess⟩ <;> (try dsimp only) <;> omega
  | jumpToChapter idx =>
    simp only [step]
    split_ifs with hmem
    · exact ⟨by positivity, by positivity, Or.inl ⟨(idx : ℤ), by push_cast; rfl⟩, hsess⟩
    · exact ⟨hp, ht, hint, hsess⟩
  | startSpeaking =>
    simp only [step]
    split_ifs with hempty hpast
    · exact ⟨hp, ht, hint, fun st hst => Option.noConfusion hst⟩
    · exact ⟨hp, ht, hint, hsess⟩
    · refine ⟨hp, ht, hint, ?_⟩
      intro st hst
      simp only [Option.some.injEq] at hst
      subst hst
      push_neg at hpast
      omega
  | stopSpeaking => exact ⟨hp, ht, hint, fun st hst => Option.noConfusion hst⟩
  | speechBoundary charIndex =>
    simp only [step]
    split_ifs with hinter
    · exact ⟨hp, ht, hint, hsess⟩
    · cases hsopt : s.session with
      | none => exact ⟨hp, ht, hint, fun u hu => hsess u hu⟩
      | some st =>
        refine ⟨by positivity, ht, Or.inl ⟨((st +
            ((jsSplitWs ((joinWords (((content.drop st).take 100).map String.data)).take
              charIndex)).length - 1) : ℕ) : ℤ), by push_cast; ring⟩,
          fun u hu => hsess u (by rw [hsopt]; exact hu)⟩

/-- The invariant holds in every reachable state. -/
theorem engineInv_run (content : List String) (hN : 1 ≤ content.length)
    (initialIndex : ℕ) (evs : List Ev) :
    EngineInv content (runEngine content initialIndex evs) := by
  have hinit : EngineInv content (initState initialIndex) := by
    refine ⟨?_, ?_, ?_, ?_⟩ <;> dsimp only [initState]
    · positivity
    · positivity
    · exact Or.inl ⟨(initialIndex : ℤ), by push_cast; rfl⟩
    · simp
  rw [runEngine]
  generalize initState initialIndex = s0 at hinit ⊢
  induction evs generalizing s0 with
  | nil => exact hinit
  | cons e evs ih =>
    rw [List.foldl_cons]
    exact ih _ (engineInv_step content hN s0 hinit e)

/-- Events whose handler writes the cursor through a clamp: ticker frame
ticks, gesture moves and releases (both responders), slider seeks, chapter
jumps and narration boundaries — every cursor write of the engine except the
RSVP branch of the frame callback. -/
def clampedWrite (s : EngineState) : Ev → Prop
  | .frameTick _ => s.isTickerMode = true
  | .panMove _ _ => True
  | .panRelease _ _ _ => True
  | .hlMove _ _ => True
  | .sliderSeek _ => True
  | .jumpToChapter _ => True
  | .speechBoundary _ => True
  | _ => False

theorem tickerTick_progress_bounds (content : List String) (hN : 1 ≤ content.length)
    (s : EngineState) (dt : ℚ) :
    0 ≤ (tickerTick content s dt).progress ∧
      (tickerTick content s dt).progress ≤ (content.length : ℚ) - 1 := by
  have hN' : (1 : ℚ) ≤ (content.length : ℚ) := by exact_mod_cast hN
  unfold tickerTick
  set p1 := s.progress + s.wpm / 60000 * min (if dt = 0 then 16 else dt) 50 with hp1
  have hp2 : 0 ≤ (if p1 < 0 then 0 else p1) := by
    split_ifs with h
    · exact le_rfl
    · linarith
  by_cases htop : (content.length : ℚ) - 1 ≤ (if p1 < 0 then 0 else p1)
  · rw [if_pos htop]
    exact ⟨by dsimp only; linarith, by dsimp only; exact le_rfl⟩
  · rw [if_neg htop]
    exact ⟨by dsimp only; exact hp2, by dsimp only; linarith⟩

/-- The narration boundary write lands inside [0, length − 1]: the chunk
starts inside the stream and the computed word offset cannot exceed the
chunk length minus one. -/
theorem speechBoundary_progress_le (content : List String) (hg : goodWords content)
    (st : ℕ) (hst : st < content.length) (charIndex : ℕ) :
    st + ((jsSplitWs ((joinWords (((content.drop st).take 100).map String.data)).take
        charIndex)).length - 1) ≤ content.length - 1 := by
  set chunk := (content.drop st).take 100 with hchunk
  have hlen : chunk.length = min 100 (content.length - st) := by
    rw [hchunk, List.length_take, List.length_drop]
  have hgchunk : goodWords chunk := by
    intro w hw
    exact hg w (List.mem_of_mem_drop (List.mem_of_mem_take hw))
  have hne : chunk ≠ [] := by
    intro h
    rw [h] at hlen
    simp only [List.length_nil] at hlen
    omega
  have hbound := jsSplitWs_take_le chunk hgchunk hne charIndex
  omega

theorem clampedWrite_bounds (content : List String) (hN : 1 ≤ content.length)
    (hg : goodWords content) (s : EngineState) (hs : EngineInv content s)
    (e : Ev) (he : clampedWrite s e) :
    (step content s e).progress = s.progress ∨
      (0 ≤ (step content s e).progress ∧
        (step content s e).progress ≤ (content.length : ℚ) - 1) := by
  obtain ⟨hp, ht, hint, hsess⟩ := hs
  have hN' : (1 : ℚ) ≤ (content.length : ℚ) := by exact_mod_cast hN
  cases e with
  | frameTick dt =>
    have hmode : s.isTickerMode = true := he
    by_cases hguard : s.wpm = 0 ∨ s.isInteracting = true
    · left
      simp only [step, if_pos hguard]
    · right
      simp only [step, if_neg hguard, hmode, if_pos rfl]
      exact tickerTick_progress_bounds content hN s dt
  | panMove dx dy =>
    right
    simp only [step]
    refine ⟨?_, ?_⟩ <;> dsimp only <;> split_ifs <;> linarith
  | panRelease vx vy decayTarget =>
    simp only [step]
    by_cases hv : |if s.isTickerMode = true then -vx * 20 else -vy * 20| < 0.5
    · rw [if_pos hv]
      rcases hint with ⟨k, hk⟩ | hle
      · left
        dsimp only
        rw [hk, jsRound_intCast]
      · right
        have h1 : jsRound s.progress ≤ (content.length : ℤ) - 1 :=
          jsRound_le_of_le_intCast (by push_cast; linarith)
        have h2 : ((jsRound s.progress : ℤ) : ℚ) ≤ (((content.length : ℤ) - 1 : ℤ) : ℚ) := by
          exact_mod_cast h1
        push_cast at h2
        refine ⟨?_, ?_⟩ <;> dsimp only
        · exact_mod_cast jsRound_nonneg hp
        · linarith
    · rw [if_neg hv]
      right
      set settled := max 0 (min decayTarget ((content.length : ℚ) - 1)) with hsettled
      have hs0 : 0 ≤ settled := le_max_left _ _
      have hs1 : settled ≤ (content.length : ℚ) - 1 := by
        rw [hsettled]
        exact max_le (by linarith) (min_le_right _ _)
      have h1 : jsRound settled ≤ (content.length : ℤ) - 1 :=
        jsRound_le_of_le_intCast (by push_cast; linarith)
      have h2 : ((jsRound settled : ℤ) : ℚ) ≤ (((content.length : ℤ) - 1 : ℤ) : ℚ) := by
        exact_mod_cast h1
      push_cast at h2
      refine ⟨?_, ?_⟩ <;> dsimp only
      · exact_mod_cast jsRound_nonneg hs0
      · linarith
  | hlMove dx charWidth =>
    right
    simp only [step]
    refine ⟨?_, ?_⟩ <;> dsimp only
    · exact le_max_left _ _
    · exact max_le (by linarith) (min_le_right _ _)
  | sliderSeek v =>
    right
    simp only [step]
    have h0 : (0 : ℤ) ≤ max 0 (min ⌊v⌋ ((content.length : ℤ) - 1)) := le_max_left _ _
    have h1 : max 0 (min ⌊v⌋ ((content.length : ℤ) - 1)) ≤ (content.length : ℤ) - 1 :=
      max_le (by omega) (min_le_right _ _)
    have h2 : ((max 0 (min ⌊v⌋ ((content.length : ℤ) - 1)) : ℤ) : ℚ) ≤
        (((content.length : ℤ) - 1 : ℤ) : ℚ) := by exact_mod_cast h1
    push_cast at h2
    refine ⟨?_, ?_⟩ <;> dsimp only
    · exact_mod_cast h0
    · push_cast
      linarith
  | jumpToChapter idx =>
    simp only [step]
    split_ifs with hmem
    · right
      rw [List.mem_map] at hmem
      obtain ⟨m, hm, hidx⟩ := hmem
      have hlt : idx < content.length := by
        rw [← hidx]
        exact chaptersOf_index_lt content
          (fun h => by rw [h] at hN; simp at hN) m hm
      refine ⟨?_, ?_⟩ <;> dsimp only
      · positivity
      · have : (idx : ℚ) + 1 ≤ (content.length : ℚ) := by exact_mod_cast hlt
        linarith
    · left
      rfl
  | speechBoundary charIndex =>
    simp only [step]
    split_ifs with hinter
    · left; rfl
    · cases hsopt : s.session with
      | none => left; rfl
      | some st =>
        right
        have hst : st < content.length := hsess st hsopt
        have hb := speechBoundary_progress_le content hg st hst charIndex
        have hle2 : (st + ((jsSplitWs ((joinWords (((content.drop st).take 100).map
            String.data)).take charIndex)).length - 1)) + 1 ≤ content.length := by omega
        have h2 : ((st + ((jsSplitWs ((joinWords (((content.drop st).take 100).map
            String.data)).take charIndex)).length - 1) + 1 : ℕ) : ℚ) ≤
            ((content.length : ℕ) : ℚ) := by exact_mod_cast hle2
        push_cast at h2
        refine ⟨?_, ?_⟩ <;> dsimp only
        · positivity
        · push_cast
          linarith
  | togglePlay => exact absurd he (by simp [clampedWrite])
  | wpmSlider v => exact absurd he (by simp [clampedWrite])
  | toggleTicker => exact absurd he (by simp [clampedWrite])
  | panGrant => exact absurd he (by simp [clampedWrite])
  | hlGrant => exact absurd he (by simp [clampedWrite])
  | hlRelease => exact absurd he (by simp [clampedWrite])
  | arrowClick down => exact absurd he (by simp [clampedWrite])
  | startSpeaking => exact absurd he (by simp [clampedWrite])
  | stopSpeaking => exact absurd he (by simp [clampedWrite])

/-! ### Exact characterization of the two autoplay branches -/

/-- The ticker tick writes exactly the clamp of cursor + (wpm / 60000) × min(dt, 50). -/
theorem tickerTick_progress_eq (content : List String) (hN : 1 ≤ content.length)
    (s : EngineState) (dt : ℚ) (hdt : dt ≠ 0) :
    (tickerTick content s dt).progress =
      max 0 (min (s.progress + s.wpm / 60000 * min dt 50) ((content.length : ℚ) - 1)) := by
  have hN' : (1 : ℚ) ≤ (content.length : ℚ) := by exact_mod_cast hN
  simp only [tickerTick]
  rw [if_neg hdt]
  set p1 := s.progress + s.wpm / 60000 * min dt 50 with hp1
  by_cases hneg : p1 < 0
  · rw [if_pos hneg]
    by_cases htop : (content.length : ℚ) - 1 ≤ 0
    · rw [if_pos htop]
      dsimp only
      have hz : (content.length : ℚ) - 1 = 0 := le_antisymm htop (by linarith)
      rw [hz, min_eq_left (by linarith), max_eq_left (by linarith)]
    · rw [if_neg htop]
      dsimp only
      rw [min_eq_left (by linarith), max_eq_left (by linarith)]
  · rw [if_neg hneg]
    by_cases htop : (content.length : ℚ) - 1 ≤ p1
    · rw [if_pos htop]
      dsimp only
      rw [min_eq_right htop, max_eq_right (by linarith)]
    · rw [if_neg htop]
      dsimp only
      rw [min_eq_left (by linarith), max_eq_right (by linarith)]

/-- During ticker autoplay the rate is reset to 0 exactly when the clamped
cursor reaches length − 1: the normal terminal transition. -/
theorem tickerTick_stop_iff (content : List String) (s : EngineState) (dt : ℚ)
    (hwpm : s.wpm ≠ 0) :
    ((tickerTick content s dt).wpm = 0 ↔
      (tickerTick content s dt).progress = (content.length : ℚ) - 1) := by
  simp only [tickerTick]
  set p1 := s.progress + s.wpm / 60000 * min (if dt = 0 then 16 else dt) 50 with hp1
  by_cases htop : (content.length : ℚ) - 1 ≤ (if p1 < 0 then 0 else p1)
  · rw [if_pos htop]
    simp
  · rw [if_neg htop]
    dsimp only
    constructor
    · intro h
      exact absurd h hwpm
    · intro h
      rw [h] at htop
      exact absurd le_rfl htop

/-- RSVP hold phase: while the accumulator is below the dwell time the cursor
is written to the integer target and the accumulator gains the elapsed time. -/
theorem rsvpTick_hold (content : List String) (s : EngineState) (dt : ℚ)
    (hwpm : s.wpm ≠ 0) (hdt : dt ≠ 0) (h : s.waitTimer < 60000 / s.wpm) :
    rsvpTick content s dt =
      { s with progress := (s.targetIndex : ℚ), waitTimer := s.waitTimer + dt } := by
  simp only [rsvpTick]
  rw [if_neg hwpm, if_pos h, if_neg hdt]

/-- RSVP advance phase: once the accumulator has reached the dwell time the
target increments by one, the cursor follows it, the accumulator resets, and
the rate is reset to 0 when the target passes the end. -/
theorem rsvpTick_advance (content : List String) (s : EngineState) (dt : ℚ)
    (hwpm : s.wpm ≠ 0) (h : ¬s.waitTimer < 60000 / s.wpm) :
    rsvpTick content s dt =
      { s with waitTimer := 0, targetIndex := s.targetIndex + 1,
               progress := ((s.targetIndex + 1 : ℤ) : ℚ),
               wpm := if (content.length : ℤ) ≤ s.targetIndex + 1 then 0 else s.wpm } := by
  simp only [rsvpTick]
  rw [if_neg hwpm, if_neg h]

/-! ### Concrete autoplay runs (a 100-word stream at 300 WPM) -/

/-- A 100-word demonstration stream. -/
def demoContent : List String :=
  List.replicate 100 "a"

/-- State during ticker autoplay at 300 WPM on the demonstration stream. -/
def tickerPlayState (q : ℚ) : EngineState :=
  { progress := q, targetIndex := ⌊q⌋, waitTimer := 0, wpm := 300, savedWpm := 300,
    isInteracting := false, isTickerMode := true, startProgress := 0, session := none }

/-- State during RSVP autoplay at 300 WPM on the demonstration stream. -/
def rsvpPlayState (t : ℤ) (wt : ℚ) : EngineState :=
  { progress := (t : ℚ), targetIndex := t, waitTimer := wt, wpm := 300, savedWpm := 300,
    isInteracting := false, isTickerMode := false, startProgress := 0, session := none }

theorem tickerTick_mid (content : List String) (s : EngineState) (dt : ℚ) (hdt : dt ≠ 0)
    (hnonneg : 0 ≤ s.progress + s.wpm / 60000 * min dt 50)
    (hlt : s.progress + s.wpm / 60000 * min dt 50 < (content.length : ℚ) - 1) :
    tickerTick content s dt =
      { s with progress := s.progress + s.wpm / 60000 * min dt 50,
               targetIndex := ⌊s.progress + s.wpm / 60000 * min dt 50⌋ } := by
  simp only [tickerTick]
  rw [if_neg hdt, if_neg (not_lt.mpr hnonneg), if_neg (not_le.mpr hlt)]

theorem ticker_step_16 (q : ℚ) (h0 : 0 ≤ q) (h99 : q + 2/25 < 99) :
    step demoContent (tickerPlayState q) (.frameTick 16) = tickerPlayState (q + 2/25) := by
  have hstep : step demoContent (tickerPlayState q) (.frameTick 16) =
      tickerTick demoContent (tickerPlayState q) 16 := by
    simp [step, tickerPlayState]
  have hinc : (tickerPlayState q).progress +
      (tickerPlayState q).wpm / 60000 * min (16 : ℚ) 50 = q + 2/25 := by
    simp only [tickerPlayState]
    norm_num [min_eq_left]
  have hlen : (demoContent.length : ℚ) - 1 = 99 := by
    norm_num [demoContent]
  rw [hstep, tickerTick_mid demoContent (tickerPlayState q) 16 (by norm_num)
    (by rw [hinc]; linarith) (by rw [hinc, hlen]; linarith)]
  have harith : q + 300 / 60000 * ((16 : ℚ) ⊓ 50) = q + 2 / 25 := by
    norm_num [min_eq_left]
  simp only [tickerPlayState, harith]

theorem ticker_run_k (k : ℕ) (hk : k ≤ 625) :
    List.foldl (step demoContent) (tickerPlayState 0) (List.replicate k (Ev.frameTick 16)) =
      tickerPlayState ((k : ℚ) * (2/25)) := by
  induction k with
  | zero =>
    simp only [List.replicate, List.foldl_nil]
    norm_num
  | succ k ih =>
    rw [List.replicate_succ', List.foldl_append, ih (by omega), List.foldl_cons,
      List.foldl_nil]
    have hk' : ((k : ℚ)) ≤ 624 := by
      exact_mod_cast (by omega : k ≤ 624)
    rw [ticker_step_16 _ (by positivity) (by nlinarith)]
    congr 1
    push_cast
    ring

theorem rsvp_step_hold (t : ℤ) (wt : ℚ) (hwt : wt < 200) :
    step demoContent (rsvpPlayState t wt) (.frameTick 16) = rsvpPlayState t (wt + 16) := by
  have hstep : step demoContent (rsvpPlayState t wt) (.frameTick 16) =
      rsvpTick demoContent (rsvpPlayState t wt) 16 := by
    simp [step, rsvpPlayState]
  rw [hstep, rsvpTick_hold demoContent (rsvpPlayState t wt) 16
    (by norm_num [rsvpPlayState]) (by norm_num)
    (by simp only [rsvpPlayState]; norm_num; linarith)]
  simp [rsvpPlayState]

theorem rsvp_step_advance (t : ℤ) (wt : ℚ) (hwt : 200 ≤ wt) (hlen : t + 1 < 100) :
    step demoContent (rsvpPlayState t wt) (.frameTick 16) = rsvpPlayState (t + 1) 0 := by
  have hstep : step demoContent (rsvpPlayState t wt) (.frameTick 16) =
      rsvpTick demoContent (rsvpPlayState t wt) 16 := by
    simp [step, rsvpPlayState]
  rw [hstep, rsvpTick_advance demoContent (rsvpPlayState t wt) 16
    (by norm_num [rsvpPlayState]) (by simp only [rsvpPlayState]; norm_num; linarith)]
  have hlen100 : (demoContent.length : ℤ) = 100 := by norm_num [demoContent]
  simp only [rsvpPlayState, hlen100]
  rw [if_neg (by omega : ¬ (100 : ℤ) ≤ t + 1)]

/-- One full RSVP dwell cycle at 300 WPM with 16 ms frames: 13 hold ticks
bring the accumulator from 0 to 208, and the fourteenth tick advances the
target — 14 ticks per word, the advancing frame's elapsed time never being
accumulated. -/
theorem rsvp_cycle (t : ℤ) (hlen : t + 1 < 100) :
    List.foldl (step demoContent) (rsvpPlayState t 0) (List.replicate 14 (Ev.frameTick 16)) =
      rsvpPlayState (t + 1) 0 := by
  show List.foldl (step demoContent) (rsvpPlayState t 0) [Ev.frameTick 16, Ev.frameTick 16,
      Ev.frameTick 16, Ev.frameTick 16, Ev.frameTick 16, Ev.frameTick 16, Ev.frameTick 16,
      Ev.frameTick 16, Ev.frameTick 16, Ev.frameTick 16, Ev.frameTick 16, Ev.frameTick 16,
      Ev.frameTick 16, Ev.frameTick 16] = rsvpPlayState (t + 1) 0
  rw [List.foldl_cons, rsvp_step_hold t 0 (by norm_num)]
  rw [show (0:ℚ) + 16 = 16 from by norm_num]
  rw [List.foldl_cons, rsvp_step_hold t 16 (by norm_num)]
  rw [show (16:ℚ) + 16 = 32 from by norm_num]
  rw [List.foldl_cons, rsvp_step_hold t 32 (by norm_num)]
  rw [show (32:ℚ) + 16 = 48 from by norm_num]
  rw [List.foldl_cons, rsvp_step_hold t 48 (by norm_num)]
  rw [show (48:ℚ) + 16 = 64 from by norm_num]
  rw [List.foldl_cons, rsvp_step_hold t 64 (by norm_num)]
  rw [show (64:ℚ) + 16 = 80 from by norm_num]
  rw [List.foldl_cons, rsvp_step_hold t 80 (by norm_num)]
  rw [show (80:ℚ) + 16 = 96 from by norm_num]
  rw [List.foldl_cons, rsvp_step_hold t 96 (by norm_num)]
  rw [show (96:ℚ) + 16 = 112 from by norm_num]
  rw [List.foldl_cons, rsvp_step_hold t 112 (by norm_num)]
  rw [show (112:ℚ) + 16 = 128 from by norm_num]
  rw [List.foldl_cons, rsvp_step_hold t 128 (by norm_num)]
  rw [show (128:ℚ) + 16 = 144 from by norm_num]
  rw [List.foldl_cons, rsvp_step_hold t 144 (by norm_num)]
  rw [show (144:ℚ) + 16 = 160 from by norm_num]
  rw [List.foldl_cons, rsvp_step_hold t 160 (by norm_num)]
  rw [show (160:ℚ) + 16 = 176 from by norm_num]
  rw [List.foldl_cons, rsvp_step_hold t 176 (by norm_num)]
  rw [show (176:ℚ) + 16 = 192 from by norm_num]
  rw [List.foldl_cons, rsvp_step_hold t 192 (by norm_num)]
  rw [show (192:ℚ) + 16 = 208 from by norm_num]
  rw [List.foldl_cons, rsvp_step_advance t 208 (by norm_num) hlen, List.foldl_nil]

theorem rsvp_cycles (k : ℕ) (hk : k ≤ 99) :
    List.foldl (step demoContent) (rsvpPlayState 0 0)
      (List.replicate (14 * k) (Ev.frameTick 16)) = rsvpPlayState (k : ℤ) 0 := by
  induction k with
  | zero => simp
  | succ k ih =>
    rw [show 14 * (k + 1) = 14 * k + 14 from by ring, List.replicate_add,
      List.foldl_append, ih (by omega), rsvp_cycle (k : ℤ)
        (by exact_mod_cast (by omega : (k : ℤ) + 1 < 100))]
    congr 1

/-- Ticker autoplay on the demonstration stream: entering ticker mode,
pressing play and ticking 625 frames of 16 ms moves the cursor from 0 to
exactly 50. -/
theorem ticker_run_625 :
    (runEngine demoContent 0 ([Ev.toggleTicker, Ev.togglePlay] ++
      List.replicate 625 (Ev.frameTick 16))).progress = 50 := by
  have h1 : step demoContent (initState 0) Ev.toggleTicker =
      { initState 0 with isTickerMode := true } := by
    simp [step, initState]
  have h2 : step demoContent { initState 0 with isTickerMode := true } Ev.togglePlay =
      tickerPlayState 0 := by
    simp only [step, initState]
    norm_num [tickerPlayState]
  rw [runEngine, List.cons_append, List.cons_append, List.foldl_cons, h1,
    List.foldl_cons, h2, List.nil_append, ticker_run_k 625 le_rfl]
  norm_num [tickerPlayState]

/-- RSVP autoplay on the demonstration stream: pressing play and ticking 128
frames of 16 ms (2.048 seconds, the whole 16 ms ticks within 2.05 seconds)
advances the integer target by exactly 9: each word costs 14 ticks. -/
theorem rsvp_run_128 :
    (runEngine demoContent 0 (Ev.togglePlay ::
      List.replicate 128 (Ev.frameTick 16))).targetIndex = 9 := by
  have hinit : step demoContent (initState 0) Ev.togglePlay = rsvpPlayState 0 0 := by
    simp only [step, initState]
    norm_num [rsvpPlayState]
  rw [runEngine, List.foldl_cons, hinit,
    show (128 : ℕ) = 14 * 9 + 2 from by norm_num, List.replicate_add,
    List.foldl_append, rsvp_cycles 9 (by norm_num),
    show List.replicate 2 (Ev.frameTick 16) = [Ev.frameTick 16, Ev.frameTick 16] from rfl,
    List.foldl_cons, show ((9 : ℕ) : ℤ) = 9 from by norm_num,
    rsvp_step_hold 9 0 (by norm_num), show (0:ℚ) + 16 = 16 from by norm_num,
    List.foldl_cons, rsvp_step_hold 9 16 (by norm_num), List.foldl_nil]
  rfl

/-- Two-word stream: pressing play in RSVP mode and letting four 300 ms
frames elapse drives the cursor to 2 = N, past the claimed bound
max(0, N − 1) = 1 (the terminal advance writes targetIndex + 1 = N). -/
theorem rsvp_overrun_trace :
    (runEngine ["a", "b"] 0 [Ev.togglePlay, Ev.frameTick 300, Ev.frameTick 300,
      Ev.frameTick 300, Ev.frameTick 300]).progress = 2 := by
  norm_num [runEngine, initState, step, rsvpTick, List.foldl]

/-! ### Last supporting lemmas for the claim theorems -/

theorem charOffsetsFrom_length (ws : List String) :
    ∀ acc : ℕ, (charOffsetsFrom acc ws).length = ws.length := by
  induction ws with
  | nil => intro acc; rfl
  | cons w rest ih =>
    intro acc
    simp only [charOffsetsFrom, List.length_cons, ih]

/-- The source's two sequential clamps equal the nested clamp for a nonempty
stream. -/
theorem seqClamp_eq (v N : ℚ) (hN : 1 ≤ N) :
    (if N - 1 < (if v < 0 then 0 else v) then N - 1 else (if v < 0 then 0 else v)) =
      max 0 (min v (N - 1)) := by
  by_cases h1 : v < 0
  · rw [if_pos h1, if_neg (by linarith : ¬N - 1 < (0 : ℚ)),
      min_eq_left (by linarith), max_eq_left (by linarith)]
  · rw [if_neg h1]
    by_cases h2 : N - 1 < v
    · rw [if_pos h2, min_eq_right (by linarith), max_eq_right (by linarith)]
    · rw [if_neg h2, min_eq_left (by linarith), max_eq_right (by linarith)]

/-- Gesture move handler writes exactly the clamp of the recorded start plus
the mode's delta. -/
theorem panMove_progress_eq (content : List String) (hN : 1 ≤ content.length)
    (s : EngineState) (dx dy : ℚ) :
    (step content s (.panMove dx dy)).progress =
      max 0 (min (s.startProgress +
          (if s.isTickerMode = true then -dx * 0.02 * 0.2 else -dy * 0.02))
        ((content.length : ℚ) - 1)) := by
  have hN' : (1 : ℚ) ≤ (content.length : ℚ) := by exact_mod_cast hN
  simp only [step]
  exact seqClamp_eq _ _ hN'

/-- Low-velocity release settles the cursor at Math.round of its current
value. -/
theorem panRelease_snap (content : List String) (s : EngineState) (vx vy e : ℚ)
    (hv : |if s.isTickerMode = true then -vx * 20 else -vy * 20| < 0.5) :
    (step content s (.panRelease vx vy e)).progress = ((jsRound s.progress : ℤ) : ℚ) := by
  simp only [step]
  rw [if_pos hv]

/-- The narration boundary write at the cumulative start offset of word k of
the chunk moves the cursor to chunk start + k. -/
theorem boundary_maps_offset (content : List String) (hg : goodWords content)
    (s : EngineState) (st : ℕ) (hsession : s.session = some st)
    (hinter : s.isInteracting = false) (k ci : ℕ)
    (hci : (charOffsets ((content.drop st).take 100)).get? k = some ci) :
    (step content s (.speechBoundary ci)).progress = ((st + k : ℕ) : ℚ) := by
  set chunk := (content.drop st).take 100 with hchunk
  have hk : k < chunk.length := by
    have h1 : k < (charOffsets chunk).length := List.get?_eq_some.mp hci |>.1
    rw [charOffsets, charOffsetsFrom_length] at h1
    exact h1
  have hval : ci = offAt chunk k := by
    have h2 := charOffsets_get? chunk k hk
    rw [hci] at h2
    exact Option.some.inj h2
  have hgchunk : goodWords chunk := fun w hw =>
    hg w (List.mem_of_mem_drop (List.mem_of_mem_take hw))
  have hsplit := jsSplitWs_take_offAt chunk hgchunk k hk
  simp only [step, hinter, Bool.false_eq_true, if_false, hsession]
  rw [← hchunk, hval, hsplit]
  norm_num

-- A reader state in column mode with a recorded gesture start of 10, used in
-- the concrete gesture example.
def colState : EngineState :=
  { progress := 10, targetIndex := 10, waitTimer := 0, wpm := 0, savedWpm := 300,
    isInteracting := true, isTickerMode := false, startProgress := 10, session := none }

-- A reader state with an active narration chunk starting at word 0, used in
-- the concrete boundary example.
def narrState : EngineState :=
  { progress := 0, targetIndex := 0, waitTimer := 0, wpm := 0, savedWpm := 300,
    isInteracting := false, isTickerMode := false, startProgress := 0, session := some 0 }

/-! ### The claims -/

/-- C1 (counterexample): on the two-word stream, pressing play in RSVP mode
and letting four 300 ms frames elapse is a reachable run whose cursor ends at
2 = N, violating the claimed invariant 0 ≤ c ≤ max(0, N − 1) = 1: the
discrete-autoplay terminal advance writes targetIndex + 1 = N to the cursor
without clamping. -/
theorem C1_counterexample :
    (runEngine ["a", "b"] 0 [Ev.togglePlay, Ev.frameTick 300, Ev.frameTick 300,
        Ev.frameTick 300, Ev.frameTick 300]).progress = 2 ∧
    ¬((runEngine ["a", "b"] 0 [Ev.togglePlay, Ev.frameTick 300, Ev.frameTick 300,
        Ev.frameTick 300, Ev.frameTick 300]).progress ≤
      max 0 (((["a", "b"] : List String).length : ℚ) - 1)) := by
  refine ⟨rsvp_overrun_trace, ?_⟩
  rw [rsvp_overrun_trace]
  norm_num

/-- C1 (amended): over a word stream of length N ≥ 1, every reachable state
of the engine satisfies 0 ≤ cursor, and every cursor write of a ticker frame
tick, gesture move or release, slider seek, chapter jump, or narration
boundary either leaves the cursor unchanged or lands it inside
[0, max(0, N − 1)]; the upper bound max(0, N − 1) fails for the engine as a
whole only because the discrete-autoplay advance writes targetIndex + 1,
reaching N at end of content (and more after further play presses there). -/
theorem C1_cursor_bounds :
    (∀ (content : List String), 1 ≤ content.length → ∀ (i0 : ℕ) (evs : List Ev),
      0 ≤ (runEngine content i0 evs).progress) ∧
    (∀ (content : List String), 1 ≤ content.length → goodWords content →
      ∀ (s : EngineState), EngineInv content s → ∀ e : Ev, clampedWrite s e →
        (step content s e).progress = s.progress ∨
          (0 ≤ (step content s e).progress ∧
            (step content s e).progress ≤ (content.length : ℚ) - 1)) :=
  ⟨fun content h i0 evs => (engineInv_run content h i0 evs).1,
   fun content h hg s hs e he => clampedWrite_bounds content h hg s hs e he⟩

theorem C1_cursor_bounds_witness :
    0 ≤ (runEngine ["a", "b"] 0 [Ev.togglePlay, Ev.frameTick 300]).progress ∧
    ((step ["a", "b"] (initState 0) (.sliderSeek 5)).progress = (initState 0).progress ∨
      (0 ≤ (step ["a", "b"] (initState 0) (.sliderSeek 5)).progress ∧
        (step ["a", "b"] (initState 0) (.sliderSeek 5)).progress ≤
          (((["a", "b"] : List String).length : ℚ)) - 1)) :=
  ⟨C1_cursor_bounds.1 ["a", "b"] (by norm_num) 0 [Ev.togglePlay, Ev.frameTick 300],
   C1_cursor_bounds.2 ["a", "b"] (by norm_num) (by unfold goodWords; decide) (initState 0)
     ⟨by norm_num [initState], by norm_num [initState],
      Or.inl ⟨0, by norm_num [initState]⟩, by simp [initState]⟩
     (.sliderSeek 5) trivial⟩

/-- C2: while a gesture holds the cursor (isInteracting set), an autoplay
frame tick and a narration boundary callback are both complete no-ops: the
stale write request is silently discarded and the state is unchanged. -/
theorem C2_stale_writes_dropped (content : List String) (s : EngineState)
    (h : s.isInteracting = true) (dt : ℚ) (charIndex : ℕ) :
    step content s (.frameTick dt) = s ∧ step content s (.speechBoundary charIndex) = s := by
  constructor
  · simp only [step]
    rw [if_pos (Or.inr h)]
  · simp only [step]
    rw [if_pos h]

theorem C2_stale_writes_dropped_witness :
    step ["a"] colState (.frameTick 16) = colState ∧
    step ["a"] colState (.speechBoundary 3) = colState :=
  C2_stale_writes_dropped ["a"] colState rfl 16 3

/-- C3: in ticker autoplay (playing, not interacting), a frame tick with
elapsed time dt writes exactly clamp(cursor + (wpm / 60000) × min(dt, 50),
0, N − 1) and resets the rate to 0 exactly when the clamped cursor reaches
N − 1 (the normal terminal transition); concretely, at 300 WPM a sequence of
625 ticks of 16 ms each moves the cursor of a 100-word stream from 0 to
exactly 50. -/
theorem C3_ticker_advance :
    (∀ (content : List String), 1 ≤ content.length → ∀ (s : EngineState) (dt : ℚ),
      dt ≠ 0 → s.isTickerMode = true → s.wpm ≠ 0 → s.isInteracting = false →
        (step content s (.frameTick dt)).progress =
          max 0 (min (s.progress + s.wpm / 60000 * min dt 50)
            ((content.length : ℚ) - 1)) ∧
        ((step content s (.frameTick dt)).wpm = 0 ↔
          (step content s (.frameTick dt)).progress = (content.length : ℚ) - 1)) ∧
    (runEngine demoContent 0 ([Ev.toggleTicker, Ev.togglePlay] ++
      List.replicate 625 (Ev.frameTick 16))).progress = 50 := by
  refine ⟨?_, ticker_run_625⟩
  intro content hN s dt hdt hmode hwpm hinter
  have hstep : step content s (.frameTick dt) = tickerTick content s dt := by
    simp only [step]
    rw [if_neg (by simp [hwpm, hinter]), hmode, if_pos rfl]
  rw [hstep]
  exact ⟨tickerTick_progress_eq content hN s dt hdt, tickerTick_stop_iff content s dt hwpm⟩

theorem C3_ticker_advance_witness :
    (step demoContent (tickerPlayState 3) (.frameTick 16)).progress =
      max 0 (min ((tickerPlayState 3).progress +
        (tickerPlayState 3).wpm / 60000 * min 16 50) ((demoContent.length : ℚ) - 1)) :=
  (C3_ticker_advance.1 demoContent (by norm_num [demoContent]) (tickerPlayState 3) 16
    (by norm_num) rfl (by norm_num [tickerPlayState]) rfl).1

/-- C4 (counterexample): at 300 WPM in discrete mode, 2.05 seconds of 16 ms
frame ticks (the 128 whole ticks within 2.05 s) advance the integer target
by 9, not the claimed 10 = floor(2050/200): the advancing frame's elapsed
time is never added to the accumulator, so a word costs
ceil(200/16) + 1 = 14 ticks. -/
theorem C4_counterexample :
    (runEngine demoContent 0 (Ev.togglePlay ::
      List.replicate 128 (Ev.frameTick 16))).targetIndex = 9 ∧
    ¬((runEngine demoContent 0 (Ev.togglePlay ::
      List.replicate 128 (Ev.frameTick 16))).targetIndex = 10) := by
  refine ⟨rsvp_run_128, ?_⟩
  rw [rsvp_run_128]
  norm_num

/-- C4 (amended): in discrete autoplay at rate wpm the dwell threshold is
60000/wpm ms: while the accumulator is below it, a tick writes the integer
target to the cursor and adds the tick's elapsed time to the accumulator;
once the accumulator has reached it, the tick increments the target by one,
writes it to the cursor, resets the accumulator to zero (discarding that
frame's elapsed time) and resets the rate to 0 when the target passes the
end.  Concretely, at 300 WPM with 16 ms frames each word costs 14 ticks, so
the 128 ticks within 2.05 seconds advance the target by exactly 9. -/
theorem C4_discrete_dwell :
    (∀ (content : List String) (s : EngineState) (dt : ℚ),
      dt ≠ 0 → s.isTickerMode = false → s.wpm ≠ 0 → s.isInteracting = false →
        (s.waitTimer < 60000 / s.wpm →
          step content s (.frameTick dt) =
            { s with progress := (s.targetIndex : ℚ), waitTimer := s.waitTimer + dt }) ∧
        (¬s.waitTimer < 60000 / s.wpm →
          step content s (.frameTick dt) =
            { s with waitTimer := 0, targetIndex := s.targetIndex + 1,
                     progress := ((s.targetIndex + 1 : ℤ) : ℚ),
                     wpm := if (content.length : ℤ) ≤ s.targetIndex + 1 then 0
                       else s.wpm })) ∧
    (runEngine demoContent 0 (Ev.togglePlay ::
      List.replicate 128 (Ev.frameTick 16))).targetIndex = 9 := by
  refine ⟨?_, rsvp_run_128⟩
  intro content s dt hdt hmode hwpm hinter
  have hstep : step content s (.frameTick dt) = rsvpTick content s dt := by
    simp only [step]
    rw [if_neg (by simp [hwpm, hinter]), hmode]
    simp
  rw [hstep]
  exact ⟨fun h => rsvpTick_hold content s dt hwpm hdt h,
    fun h => rsvpTick_advance content s dt hwpm h⟩

theorem C4_discrete_dwell_witness :
    step demoContent (rsvpPlayState 3 0) (.frameTick 16) =
      { rsvpPlayState 3 0 with progress := ((rsvpPlayState 3 0).targetIndex : ℚ),
                               waitTimer := (rsvpPlayState 3 0).waitTimer + 16 } :=
  (C4_discrete_dwell.1 demoContent (rsvpPlayState 3 0) 16 (by norm_num) rfl
    (by norm_num [rsvpPlayState]) rfl).1 (by norm_num [rsvpPlayState])

/-- C5: every gesture move writes clamp(startCursor + (−translation × 0.02),
0, N − 1) to the cursor, where the translation is the vertical drag axis in
column mode and the horizontal axis with an extra 1/5 factor in ticker mode;
concretely, a column-mode drag translation of −100 units (sign per the
convention delta = −translation × sensitivity) from start cursor 10 lands at
12: a delta of +2.0 words. -/
theorem C5_gesture_move :
    (∀ (content : List String), 1 ≤ content.length → ∀ (s : EngineState) (dx dy : ℚ),
      (step content s (.panMove dx dy)).progress =
        max 0 (min (s.startProgress +
            (if s.isTickerMode = true then -dx * 0.02 * 0.2 else -dy * 0.02))
          ((content.length : ℚ) - 1))) ∧
    (step demoContent colState (.panMove 0 (-100))).progress = colState.startProgress + 2 := by
  constructor
  · exact fun content hN s dx dy => panMove_progress_eq content hN s dx dy
  · rw [panMove_progress_eq demoContent (by norm_num [demoContent]) colState 0 (-100)]
    norm_num [colState, demoContent]

theorem C5_gesture_move_witness :
    (step ["a", "b", "c"] colState (.panMove 0 (-100))).progress =
      max 0 (min (colState.startProgress +
          (if colState.isTickerMode = true then -(0 : ℚ) * 0.02 * 0.2 else -(-100) * 0.02))
        (((["a", "b", "c"] : List String).length : ℚ) - 1)) :=
  C5_gesture_move.1 ["a", "b", "c"] (by norm_num) colState 0 (-100)

/-- C6: a gesture release whose computed exit velocity is below 0.5 in
absolute value settles the cursor at the nearest integer: the settled value
is an integer and differs from the pre-release cursor by at most 1/2. -/
theorem C6_release_snap (content : List String) (s : EngineState) (vx vy e : ℚ)
    (hv : |if s.isTickerMode = true then -vx * 20 else -vy * 20| < 0.5) :
    ∃ k : ℤ, (step content s (.panRelease vx vy e)).progress = (k : ℚ) ∧
      |(step content s (.panRelease vx vy e)).progress - s.progress| ≤ 1/2 := by
  rw [panRelease_snap content s vx vy e hv]
  exact ⟨jsRound s.progress, rfl, jsRound_dist s.progress⟩

theorem C6_release_snap_witness :
    ∃ k : ℤ, (step ["a", "b"] colState (.panRelease 0 0 0)).progress = (k : ℚ) ∧
      |(step ["a", "b"] colState (.panRelease 0 0 0)).progress - colState.progress| ≤ 1/2 :=
  C6_release_snap ["a", "b"] colState 0 0 0 (by norm_num [colState])

/-- C7: the chapter scan records a marker exactly at the positions whose
token is (case-insensitively) a chapter keyword with a numeral token right
after it, the marker's title being the two matched tokens joined by a space
(the skip of the consumed numeral hides no match); a stream with "CHAPTER"
then "1" at word index 57 yields exactly the marker (title "CHAPTER 1",
index 57); a stream with no matching pair yields exactly the default marker
at index 0. -/
theorem C7_chapter_markers :
    (∀ (l : List String) (m : Marker), m ∈ chapterScan 0 l ↔
      ∃ j w next, l.get? j = some w ∧ l.get? (j + 1) = some next ∧
        isChapterKeyword w = true ∧ isNumeralToken next = true ∧
        m = ⟨w ++ " " ++ next, j⟩) ∧
    chaptersOf (List.replicate 57 "word" ++ ["CHAPTER", "1", "more", "words"]) =
      [⟨"CHAPTER 1", 57⟩] ∧
    (∀ l : List String, (¬∃ j w next, l.get? j = some w ∧ l.get? (j + 1) = some next ∧
        isChapterKeyword w = true ∧ isNumeralToken next = true) →
      chaptersOf l = [⟨"Début", 0⟩]) := by
  refine ⟨?_, by decide, ?_⟩
  · intro l m
    simpa using chapterScan_mem_iff l 0 m
  · intro l hno
    have hempty : chapterScan 0 l = [] := by
      rw [List.eq_nil_iff_forall_not_mem]
      intro m hm
      obtain ⟨j, w, next, h1, h2, h3, h4, -⟩ := (chapterScan_mem_iff l 0 m).mp hm
      exact hno ⟨j, w, next, h1, h2, h3, h4⟩
    rw [chaptersOf, hempty]
    rfl

theorem C7_chapter_markers_witness :
    (⟨"CHAPTER 1", 0⟩ : Marker) ∈ chapterScan 0 ["CHAPTER", "1"] :=
  (C7_chapter_markers.1 ["CHAPTER", "1"] ⟨"CHAPTER 1", 0⟩).mpr
    ⟨0, "CHAPTER", "1", rfl, rfl, by decide, by decide, by decide⟩

/-- C8: a narration boundary whose character offset is the cumulative start
offset of word k of the spoken chunk (per the chunk's per-word cumulative
character offsets) moves the cursor to chunk start + k, provided no gesture
is interacting; concretely in the chunk "the quick brown fox", character
offset 10 is word offset 2 and the cursor is set to chunk start + 2. -/
theorem C8_boundary_mapping :
    (∀ (content : List String), goodWords content →
      ∀ (s : EngineState) (st : ℕ), s.session = some st → s.isInteracting = false →
      ∀ (k ci : ℕ), (charOffsets ((content.drop st).take 100)).get? k = some ci →
        (step content s (.speechBoundary ci)).progress = ((st + k : ℕ) : ℚ)) ∧
    (jsSplitWs ("the quick brown fox".data.take 10)).length - 1 = 2 ∧
    (step ["the", "quick", "brown", "fox"] narrState (.speechBoundary 10)).progress = 2 := by
  refine ⟨?_, by decide, ?_⟩
  · exact fun content hg s st h1 h2 k ci hci =>
      boundary_maps_offset content hg s st h1 h2 k ci hci
  · have h := boundary_maps_offset ["the", "quick", "brown", "fox"]
      (by unfold goodWords; decide) narrState 0 rfl rfl 2 10 (by decide)
    rw [h]
    norm_num

theorem C8_boundary_mapping_witness :
    (step ["the", "quick", "brown", "fox"] narrState (.speechBoundary 10)).progress =
      (((0 + 2 : ℕ)) : ℚ) :=
  C8_boundary_mapping.1 ["the", "quick", "brown", "fox"] (by unfold goodWords; decide)
    narrState 0 rfl rfl 2 10 (by decide)

/-- C9: whenever the local index floor(cursor) − windowStart falls outside
the bounds of the current (nonempty) render window's offset table, the
continuous-mode container style returns the safe default translation
screenW / 2 instead of indexing the table. -/
theorem C9_renderer_safe_default (offsets : List ℕ) (offsetStartWord windowTextLen : ℕ)
    (screenW charWidth progress : ℚ)
    (hoff : ¬offsets.isEmpty = true) (htext : windowTextLen ≠ 0)
    (hout : ⌊progress⌋ - (offsetStartWord : ℤ) < 0 ∨
      (offsets.length : ℤ) ≤ ⌊progress⌋ - (offsetStartWord : ℤ)) :
    containerTranslate offsets offsetStartWord windowTextLen screenW charWidth progress =
      screenW / 2 := by
  simp only [containerTranslate]
  rw [if_neg (by push_neg; exact ⟨by simpa using hoff, htext⟩), if_pos hout]

theorem C9_renderer_safe_default_witness :
    containerTranslate [0, 4] 0 9 100 13 5 = 100 / 2 :=
  C9_renderer_safe_default [0, 4] 0 9 100 13 5 (by decide) (by decide)
    (Or.inr (by norm_num))

/-- C10: the word array of processBookText consists only of nonempty,
whitespace-free tokens, so the cumulative character-offset table built from
any contiguous slice of it (as the render window does) strictly increases by
at least 2 per word. -/
theorem C10_tokens_offsets (cleanText : String) :
    goodWords (processBookText cleanText).words ∧
    ∀ a b : ℕ, List.Chain' (fun x y => x + 2 ≤ y)
      (charOffsets ((((processBookText cleanText).words).drop a).take b)) := by
  have hgood : goodWords (tokenizeWords cleanText) := tokenizeWords_good cleanText
  refine ⟨hgood, ?_⟩
  intro a b
  refine charOffsetsFrom_chain _ ?_ 0
  intro w hw
  exact (hgood w (List.mem_of_mem_drop (List.mem_of_mem_take hw))).1

theorem C10_tokens_offsets_witness :
    List.Chain' (fun x y => x + 2 ≤ y)
      (charOffsets ((((processBookText "the quick  brown").words).drop 0).take 3)) :=
  (C10_tokens_offsets "the quick  brown").2 0 3
